import Mathlib

/-!
# Verification of the open_tool_speex A-law codec and frame pipeline

Shallow embedding of the repository's two A-law codec implementations and of
the frame-oriented processing pipeline, together with theorems settling the
specification claims.

* `G711` embeds the direct-computation codec (`src/unnamed/part_005`,
  functions `Linear2Alaw` / `Alaw2Linear` and the buffer variants).  This is
  also the codec of the `internal/audio` package used by
  `internal/processor`: the package's own test file
  (`src/internal/audio/alaw_test.go`) pins down exactly this implementation
  (`Linear2Alaw(0) = 0xD5`, `Linear2Alaw(32767) = 0xAA`,
  `Linear2Alaw(-32768) = 0x2A`).
* `Alaw` embeds the table-driven codec of `src/alaw.go`
  (`AlawToPCM16` / `PCM16ToAlaw` / `pcm16ToAlawDirect`).

Go `int16` values are modelled as `Int`; arithmetic right shift `>>` on a
signed value is `Int.fdiv` by the corresponding power of two, and unsigned
8-bit values are `Nat` (< 256 at every use site).  The only place Go's
wrapping arithmetic could differ from plain `Int` arithmetic is `-pcm - 1`
at `pcm = -32768`, where Go's wrap-around also yields `32767`, the exact
mathematical value, so plain `Int` arithmetic is faithful there as well.
-/

namespace G711

/-- `segAend` from `src/unnamed/part_005`: A-law segment end values. -/
def segAend : List Int := [0x1F, 0x3F, 0x7F, 0xFF, 0x1FF, 0x3FF, 0x7FF, 0xFFF]

/-- `search` from `src/unnamed/part_005`: index of the first table entry
that is `≥ val`, or the table size if none is. -/
def search (val : Int) : List Int → Nat
  | [] => 0
  | t :: ts => if val ≤ t then 0 else search val ts + 1

/-- `Linear2Alaw` from `src/unnamed/part_005`: direct-computation A-law
encoder.  `pcmVal >> 3` is an arithmetic shift on `int16`, i.e. floor
division by 8. -/
def Linear2Alaw (pcmVal : Int) : Nat :=
  let p : Int := Int.fdiv pcmVal 8
  let mask : Nat := if p ≥ 0 then 0xD5 else 0x55
  let m : Int := if p ≥ 0 then p else -p - 1
  let seg : Nat := search m segAend
  if seg ≥ 8 then 0x7F ^^^ mask
  else
    let mN : Nat := m.toNat
    let quant : Nat := if seg < 2 then (mN >>> 1) &&& 0xF else (mN >>> seg) &&& 0xF
    ((seg <<< 4) ||| quant) ^^^ mask

/-- `Alaw2Linear` from `src/unnamed/part_005`: direct-computation A-law
decoder.  The intermediate `t` never exceeds 32256, so the Go `int16` cast
at the return is the identity. -/
def Alaw2Linear (aVal : Nat) : Int :=
  let a : Nat := aVal ^^^ 0x55
  let t0 : Nat := (a &&& 0xF) <<< 4
  let seg : Nat := (a &&& 0x70) >>> 4
  let t : Nat :=
    if seg = 0 then t0 + 8
    else if seg = 1 then t0 + 0x108
    else (t0 + 0x108) <<< (seg - 1)
  if a &&& 0x80 ≠ 0 then (t : Int) else -(t : Int)

/-- `AlawToPCM16` from `src/unnamed/part_005` (alias for `Alaw2Linear`). -/
def AlawToPCM16 (alaw : Nat) : Int := Alaw2Linear alaw

/-- `PCM16ToAlaw` from `src/unnamed/part_005` (alias for `Linear2Alaw`). -/
def PCM16ToAlaw (pcm : Int) : Nat := Linear2Alaw pcm

/-- `AlawBufferToPCM16` from `src/unnamed/part_005`: the loop
`for i := 0; i < len(alawData) && i < len(pcmData); i++` converts the first
`min` elements in place and leaves the rest of the destination unchanged. -/
def AlawBufferToPCM16 : List Nat → List Int → List Int
  | _, [] => []
  | [], p => p
  | a :: as, _ :: ps => AlawToPCM16 a :: AlawBufferToPCM16 as ps

/-- `PCM16BufferToAlaw` from `src/unnamed/part_005`. -/
def PCM16BufferToAlaw : List Int → List Nat → List Nat
  | _, [] => []
  | [], a => a
  | p :: ps, _ :: as => PCM16ToAlaw p :: PCM16BufferToAlaw ps as

end G711

namespace Alaw

/-- `alawDecodeTable` from `src/alaw.go`, all 256 entries verbatim. -/
def alawDecodeTable : List Int :=
  [-5504, -5248, -6016, -5760, -4480, -4224, -4992, -4736,
   -7552, -7296, -8064, -7808, -6528, -6272, -7040, -6784,
   -2752, -2624, -3008, -2880, -2240, -2112, -2496, -2368,
   -3776, -3648, -4032, -3904, -3264, -3136, -3520, -3392,
   -22016, -20992, -24064, -23040, -17920, -16896, -19968, -18944,
   -30208, -29184, -32256, -31232, -26112, -25088, -28160, -27136,
   -11008, -10496, -12032, -11520, -8960, -8448, -9984, -9472,
   -15104, -14592, -16128, -15616, -13056, -12544, -14080, -13568,
   -344, -328, -376, -360, -280, -264, -312, -296,
   -472, -456, -504, -488, -408, -392, -440, -424,
   -88, -72, -120, -104, -24, -8, -56, -40,
   -216, -200, -248, -232, -152, -136, -184, -168,
   -1376, -1312, -1504, -1440, -1120, -1056, -1248, -1184,
   -1888, -1824, -2016, -1952, -1632, -1568, -1760, -1696,
   -688, -656, -752, -720, -560, -528, -624, -592,
   -944, -912, -1008, -976, -816, -784, -880, -848,
   5504, 5248, 6016, 5760, 4480, 4224, 4992, 4736,
   7552, 7296, 8064, 7808, 6528, 6272, 7040, 6784,
   2752, 2624, 3008, 2880, 2240, 2112, 2496, 2368,
   3776, 3648, 4032, 3904, 3264, 3136, 3520, 3392,
   22016, 20992, 24064, 23040, 17920, 16896, 19968, 18944,
   30208, 29184, 32256, 31232, 26112, 25088, 28160, 27136,
   11008, 10496, 12032, 11520, 8960, 8448, 9984, 9472,
   15104, 14592, 16128, 15616, 13056, 12544, 14080, 13568,
   344, 328, 376, 360, 280, 264, 312, 296,
   472, 456, 504, 488, 408, 392, 440, 424,
   88, 72, 120, 104, 24, 8, 56, 40,
   216, 200, 248, 232, 152, 136, 184, 168,
   1376, 1312, 1504, 1440, 1120, 1056, 1248, 1184,
   1888, 1824, 2016, 1952, 1632, 1568, 1760, 1696,
   688, 656, 752, 720, 560, 528, 624, 592,
   944, 912, 1008, 976, 816, 784, 880, 848]

/-- `AlawToPCM16` from `src/alaw.go`: table lookup. -/
def AlawToPCM16 (alaw : Nat) : Int := alawDecodeTable.getD alaw 0

/-- The `pcm >= 256` segment loop of `pcm16ToAlawDirect` in `src/alaw.go`,
unrolled: `seg` starts at 8 (a Go `uint8`) and is decremented before each
bit test from `0x100` down to `1`; if no tested bit is set the final
decrement wraps the `uint8` counter to 255. -/
def segSearchHigh (m : Nat) : Nat :=
  if m &&& 0x100 ≠ 0 then 7
  else if m &&& 0x80 ≠ 0 then 6
  else if m &&& 0x40 ≠ 0 then 5
  else if m &&& 0x20 ≠ 0 then 4
  else if m &&& 0x10 ≠ 0 then 3
  else if m &&& 0x8 ≠ 0 then 2
  else if m &&& 0x4 ≠ 0 then 1
  else if m &&& 0x2 ≠ 0 then 0
  else 255

/-- The `pcm < 256` segment loop of `pcm16ToAlawDirect` in `src/alaw.go`,
unrolled: `seg` starts at 1 and is incremented before each bit test from
`0x20` down to `1`; both a set bit 0 and falling off the loop give 7. -/
def segSearchLow (m : Nat) : Nat :=
  if m &&& 0x20 ≠ 0 then 2
  else if m &&& 0x10 ≠ 0 then 3
  else if m &&& 0x8 ≠ 0 then 4
  else if m &&& 0x4 ≠ 0 then 5
  else if m &&& 0x2 ≠ 0 then 6
  else 7

/-- `pcm16ToAlawDirect` from `src/alaw.go`.  `>> 4` on the non-negative
magnitude is floor division by 16; the `if pcm < 0 { pcm = 0x7ff }` guard
after the negative branch is kept although it is unreachable for `int16`
inputs. -/
def pcm16ToAlawDirect (pcm : Int) : Nat :=
  let mask : Nat := if pcm ≥ 0 then 0 else 0x80
  let m0 : Int :=
    if pcm ≥ 0 then Int.fdiv pcm 16
    else
      let q : Int := Int.fdiv (-pcm - 1) 16
      if q < 0 then 0x7ff else q
  let m : Nat := m0.toNat
  let seg : Nat := if m ≥ 256 then segSearchHigh m else segSearchLow m
  if seg ≥ 8 then 0x7f ^^^ mask
  else (((seg <<< 4) ||| ((m >>> (seg + 3)) &&& 0xf)) ^^^ 0x55) ^^^ mask

/-- `alawEncodeTable` from `src/alaw.go`: the `init` loop fills
`alawEncodeTable[i] = pcm16ToAlawDirect(int16(i))` for `i < 4096`; the
callers below only index it with values already clamped to `< 4096`. -/
def alawEncodeTable (i : Nat) : Nat := pcm16ToAlawDirect (i : Int)

/-- `PCM16ToAlaw` from `src/alaw.go`: clamp the magnitude to the table
range and look it up, XORing the sign bit for negative inputs. -/
def PCM16ToAlaw (pcm : Int) : Nat :=
  if pcm ≥ 0 then
    alawEncodeTable (if pcm ≥ 4096 then 4095 else pcm).toNat
  else
    let q : Int := -pcm - 1
    alawEncodeTable (if q ≥ 4096 then 4095 else q).toNat ^^^ 0x80

/-- `AlawBufferToPCM16` from `src/alaw.go` (same loop shape as the
`part_005` buffer variant, over this file's scalar conversion). -/
def AlawBufferToPCM16 : List Nat → List Int → List Int
  | _, [] => []
  | [], p => p
  | a :: as, _ :: ps => AlawToPCM16 a :: AlawBufferToPCM16 as ps

/-- `PCM16BufferToAlaw` from `src/alaw.go`. -/
def PCM16BufferToAlaw : List Int → List Nat → List Nat
  | _, [] => []
  | [], a => a
  | p :: ps, _ :: as => PCM16ToAlaw p :: PCM16BufferToAlaw ps as

end Alaw


/-! ## Processing modes and mode policy -/

/-- `ProcessingMode` from `src/pkg/types/types.go`: the closed set of six
processing modes. -/
inductive ProcessingMode
  | ModeBypass
  | ModeTestAlaw
  | ModeNSOnly
  | ModeAECOnly
  | ModeNSFirst
  | ModeAECFirst
deriving DecidableEq

open ProcessingMode

/-- `Processor.needsSpeakerFile` from `src/internal/processor`
(`processor_test.go` concatenation, lines 277-281): the speaker file is
needed unless the mode is NS-only, bypass, or test-alaw. -/
def needsSpeakerFile (m : ProcessingMode) : Bool :=
  (m != ModeNSOnly) && (m != ModeBypass) && (m != ModeTestAlaw)

/-- `speakerRequired` from `validateConfig` in `src/unnamed/part_001`
(internal/config), line 110. -/
def speakerRequired (m : ProcessingMode) : Bool :=
  (m != ModeNSOnly) && (m != ModeBypass) && (m != ModeTestAlaw)

/-! ## The internal/processor frame pipeline

`Processor.processAudio` reads fixed-size frames from the mic (and, when the
mode needs it, speaker) byte streams, pads a short final frame with the
A-law silence byte `0xD5` (`zeroPadFrames`), decodes with the
`internal/audio` codec, dispatches on the mode (`processFrame`), and writes
one output frame per iteration.  Streams are `List Nat` of byte values; the
external Speex engine calls are opaque parameters returning
`Option (List Int)` (`none` models the `nil` failure return).  The run is
instrumented with a trace recording, per iteration, the padded mic frame,
the decoded speaker frame, the far-end frame handed to the engine, and the
number of buffer decode/encode calls, so that claims about control flow are
statements about the trace. -/

/-- Configuration fields of `types.Config` consumed by the processing loop. -/
structure Config where
  mode : ProcessingMode
  frameSize : Nat
  usePrevSpeaker : Bool

/-- `zeroPadFrames` applied to one freshly read frame: `io.ReadFull` places
`min frameSize (length s)` bytes at the front of the frame buffer and the
pad loop overwrites the remainder with the silence byte `0xD5`. -/
def zeroPadFrame (fs : Nat) (s : List Nat) : List Nat :=
  s.take fs ++ List.replicate (fs - s.length) 0xD5

/-- A-law decode of a frame buffer: `audio.AlawBufferToPCM16` into the
(zero-initialised, fully overwritten) PCM frame buffer of length `fs`. -/
def decodeFrame (fs : Nat) (frame : List Nat) : List Int :=
  G711.AlawBufferToPCM16 frame (List.replicate fs 0)

/-- A-law encode of a processed frame: `audio.PCM16BufferToAlaw` into a
freshly allocated (zero-filled) output buffer of length `fs`, exactly as
every branch of `Processor.processFrame` does. -/
def encodeFrame (fs : Nat) (pcm : List Int) : List Nat :=
  G711.PCM16BufferToAlaw pcm (List.replicate fs 0)

/-- `Processor.getAECSpeakerFrame`: previous speaker frame when delay
compensation is on, current one otherwise. -/
def getAECSpeakerFrame (cfg : Config) (spkPcm prevSpkPcm : List Int) : List Int :=
  if cfg.usePrevSpeaker then prevSpkPcm else spkPcm

/-- Result of one `Processor.processFrame` call: the produced output frame
(`none` = engine failure), the far-end frame passed to an engine stage (if
one was), and the number of `PCM16BufferToAlaw` calls made. -/
structure FrameResult where
  out : Option (List Nat)
  farUsed : Option (List Int)
  encCalls : Nat
deriving DecidableEq

/-- The shared tail of every engine branch of `Processor.processFrame`:
a `nil` engine result aborts the frame, any other result is encoded into a
freshly allocated output buffer of the configured frame size. -/
def stageOut (fs : Nat) (far : Option (List Int)) : Option (List Int) → FrameResult
  | none => ⟨none, far, 0⟩
  | some o => ⟨some (encodeFrame fs o), far, 1⟩

/-- `Processor.processFrame` from `src/internal/processor`: mode dispatch
for a single frame.  `ns`, `aecEcho`, `aecFull` are the opaque engine
operations `separateNS.ProcessFrame`, `aec.ProcessFrameEchoOnly` and
`aec.ProcessFrame`. -/
def processFrame (cfg : Config) (ns : List Int → Option (List Int))
    (aecEcho aecFull : List Int → List Int → Option (List Int))
    (micPcm spkPcm prevSpkPcm : List Int) : FrameResult :=
  match cfg.mode with
  | ModeBypass => ⟨some (encodeFrame cfg.frameSize micPcm), none, 1⟩
  | ModeTestAlaw => ⟨some (encodeFrame cfg.frameSize micPcm), none, 1⟩
  | ModeNSOnly => stageOut cfg.frameSize none (ns micPcm)
  | ModeAECOnly =>
    let far := getAECSpeakerFrame cfg spkPcm prevSpkPcm
    stageOut cfg.frameSize (some far) (aecEcho micPcm far)
  | ModeNSFirst =>
    match ns micPcm with
    | none => ⟨none, none, 0⟩
    | some nsOut =>
      let far := getAECSpeakerFrame cfg spkPcm prevSpkPcm
      stageOut cfg.frameSize (some far) (aecEcho nsOut far)
  | ModeAECFirst =>
    let far := getAECSpeakerFrame cfg spkPcm prevSpkPcm
    stageOut cfg.frameSize (some far) (aecFull micPcm far)

/-- Observable trace of one `processAudio` run: frames written to the
output stream, padded mic frames read, decoded speaker frames read, far-end
frames passed to the engine, buffer-level codec call counts, and the error
outcome (`some k` = engine failure at frame index `k`, `none` = clean
termination). -/
structure PTrace where
  outputs : List (List Nat)
  micPadded : List (List Nat)
  spkDecoded : List (List Int)
  engineFar : List (List Int)
  decodeCalls : Nat
  encodeCalls : Nat
  err : Option Nat
deriving DecidableEq

/-- The empty starting trace. -/
def emptyTrace : PTrace := ⟨[], [], [], [], 0, 0, none⟩

/-- The main loop of `Processor.processAudio`.  Fuel-indexed so that it is
structurally recursive; `processAudio` supplies fuel `mic.length + 1`,
enough for any positive frame size since every iteration consumes at least
one mic byte. -/
def processLoop (cfg : Config) (ns : List Int → Option (List Int))
    (aecEcho aecFull : List Int → List Int → Option (List Int)) :
    Nat → List Nat → List Nat → List Int → PTrace → PTrace
  | 0, _, _, _, acc => acc
  | fuel + 1, mic, spk, prevSpkPcm, acc =>
    if mic.isEmpty then acc
    else if needsSpeakerFile cfg.mode && spk.isEmpty then acc
    else
      let micFrame := zeroPadFrame cfg.frameSize mic
      let micPcm := decodeFrame cfg.frameSize micFrame
      let spkPcm :=
        if needsSpeakerFile cfg.mode then
          decodeFrame cfg.frameSize (zeroPadFrame cfg.frameSize spk)
        else List.replicate cfg.frameSize 0
      let dC : Nat := if needsSpeakerFile cfg.mode then 2 else 1
      let fr := processFrame cfg ns aecEcho aecFull micPcm spkPcm prevSpkPcm
      match fr.out with
      | none =>
        { acc with
          micPadded := acc.micPadded ++ [micFrame]
          spkDecoded := acc.spkDecoded ++
            (if needsSpeakerFile cfg.mode then [spkPcm] else [])
          engineFar := acc.engineFar ++ fr.farUsed.toList
          decodeCalls := acc.decodeCalls + dC
          encodeCalls := acc.encodeCalls + fr.encCalls
          err := some acc.outputs.length }
      | some o =>
        let prevNext :=
          if cfg.usePrevSpeaker && needsSpeakerFile cfg.mode then spkPcm
          else prevSpkPcm
        processLoop cfg ns aecEcho aecFull fuel (mic.drop cfg.frameSize)
          (if needsSpeakerFile cfg.mode then spk.drop cfg.frameSize else spk)
          prevNext
          { acc with
            outputs := acc.outputs ++ [o]
            micPadded := acc.micPadded ++ [micFrame]
            spkDecoded := acc.spkDecoded ++
              (if needsSpeakerFile cfg.mode then [spkPcm] else [])
            engineFar := acc.engineFar ++ fr.farUsed.toList
            decodeCalls := acc.decodeCalls + dC
            encodeCalls := acc.encodeCalls + fr.encCalls }

/-- `Processor.processAudio`: run the loop from the initial state (the
previous-speaker frame starts as the all-zero `make([]int16, frameSize)`
buffer). -/
def processAudio (cfg : Config) (ns : List Int → Option (List Int))
    (aecEcho aecFull : List Int → List Int → Option (List Int))
    (mic spk : List Nat) : PTrace :=
  processLoop cfg ns aecEcho aecFull (mic.length + 1) mic spk
    (List.replicate cfg.frameSize 0) emptyTrace

/-! ## The src/main.go frame pipeline (`processAEC`)

The older single-file tool drives the same loop shape with boolean mode
flags and the root-package (table-driven) codec from `src/alaw.go`.  Its
bypass branch copies the padded A-law mic frame directly to the output,
but the A-law-to-PCM16 decode of the mic frame (line 266) runs
unconditionally, before the mode dispatch. -/

/-- The mode flags of `processAEC` in `src/main.go` (mutually exclusive,
enforced by `main`), plus the loop parameters it uses. -/
structure MainConfig where
  frameSize : Nat
  usePrevSpeaker : Bool
  nsFirst : Bool
  nsOnly : Bool
  aecOnly : Bool
  bypass : Bool

/-- The speaker-stream requirement in `src/main.go`
(`!nsOnly && !bypass`, lines 136 and 241). -/
def mainNeedsSpeaker (cfg : MainConfig) : Bool := !cfg.nsOnly && !cfg.bypass

/-- A-law decode of a frame with the root-package codec of `src/alaw.go`. -/
def mainDecodeFrame (fs : Nat) (frame : List Nat) : List Int :=
  Alaw.AlawBufferToPCM16 frame (List.replicate fs 0)

/-- A-law encode of a frame with the root-package codec of `src/alaw.go`,
into a freshly allocated output buffer (line 323). -/
def mainEncodeFrame (fs : Nat) (pcm : List Int) : List Nat :=
  Alaw.PCM16BufferToAlaw pcm (List.replicate fs 0)

/-- The shared tail of every engine branch of `processAEC`: a `nil` engine
result aborts the frame, any other result is encoded with the root-package
codec into a freshly allocated output buffer. -/
def mainStageOut (fs : Nat) (far : Option (List Int)) :
    Option (List Int) → FrameResult
  | none => ⟨none, far, 0⟩
  | some o => ⟨some (mainEncodeFrame fs o), far, 1⟩

/-- The mode dispatch of `processAEC` (lines 282-325): bypass copies the
padded mic A-law frame, the other branches run the engine stages and
encode the result. -/
def mainDispatch (cfg : MainConfig) (ns : List Int → Option (List Int))
    (aecEcho aecFull : List Int → List Int → Option (List Int))
    (micFrame : List Nat) (micPcm aecSpeakerFrame : List Int) : FrameResult :=
  if cfg.bypass then ⟨some micFrame, none, 0⟩
  else if cfg.nsOnly then mainStageOut cfg.frameSize none (ns micPcm)
  else if cfg.aecOnly then
    mainStageOut cfg.frameSize (some aecSpeakerFrame) (aecEcho micPcm aecSpeakerFrame)
  else if cfg.nsFirst then
    match ns micPcm with
    | none => ⟨none, none, 0⟩
    | some nsOut =>
      mainStageOut cfg.frameSize (some aecSpeakerFrame) (aecEcho nsOut aecSpeakerFrame)
  else
    mainStageOut cfg.frameSize (some aecSpeakerFrame) (aecFull micPcm aecSpeakerFrame)

/-- The main processing loop of `processAEC` in `src/main.go`, instrumented
like `processLoop`.  Differences from the `internal/processor` loop: the
mic frame is always decoded (even in bypass), the far-end frame is selected
before the mode dispatch, and the previous-speaker frame is updated under
`usePrevSpeaker && !bypass` (line 328). -/
def processAECLoop (cfg : MainConfig) (ns : List Int → Option (List Int))
    (aecEcho aecFull : List Int → List Int → Option (List Int)) :
    Nat → List Nat → List Nat → List Int → PTrace → PTrace
  | 0, _, _, _, acc => acc
  | fuel + 1, mic, spk, prevSpkPcm, acc =>
    if mic.isEmpty then acc
    else if mainNeedsSpeaker cfg && spk.isEmpty then acc
    else
      let micFrame := zeroPadFrame cfg.frameSize mic
      let micPcm := mainDecodeFrame cfg.frameSize micFrame
      let spkPcm :=
        if mainNeedsSpeaker cfg then
          mainDecodeFrame cfg.frameSize (zeroPadFrame cfg.frameSize spk)
        else List.replicate cfg.frameSize 0
      let dC : Nat := if mainNeedsSpeaker cfg then 2 else 1
      let aecSpeakerFrame := if cfg.usePrevSpeaker then prevSpkPcm else spkPcm
      let fr := mainDispatch cfg ns aecEcho aecFull micFrame micPcm aecSpeakerFrame
      match fr.out with
      | none =>
        { acc with
          micPadded := acc.micPadded ++ [micFrame]
          spkDecoded := acc.spkDecoded ++
            (if mainNeedsSpeaker cfg then [spkPcm] else [])
          engineFar := acc.engineFar ++ fr.farUsed.toList
          decodeCalls := acc.decodeCalls + dC
          encodeCalls := acc.encodeCalls + fr.encCalls
          err := some acc.outputs.length }
      | some o =>
        let prevNext :=
          if cfg.usePrevSpeaker && !cfg.bypass then spkPcm else prevSpkPcm
        processAECLoop cfg ns aecEcho aecFull fuel (mic.drop cfg.frameSize)
          (if mainNeedsSpeaker cfg then spk.drop cfg.frameSize else spk)
          prevNext
          { acc with
            outputs := acc.outputs ++ [o]
            micPadded := acc.micPadded ++ [micFrame]
            spkDecoded := acc.spkDecoded ++
              (if mainNeedsSpeaker cfg then [spkPcm] else [])
            engineFar := acc.engineFar ++ fr.farUsed.toList
            decodeCalls := acc.decodeCalls + dC
            encodeCalls := acc.encodeCalls + fr.encCalls }

/-- `processAEC` from `src/main.go`: run the loop from the initial state
(lines 190-198 initialise the previous-speaker frame to silence). -/
def processAEC (cfg : MainConfig) (ns : List Int → Option (List Int))
    (aecEcho aecFull : List Int → List Int → Option (List Int))
    (mic spk : List Nat) : PTrace :=
  processAECLoop cfg ns aecEcho aecFull (mic.length + 1) mic spk
    (List.replicate cfg.frameSize 0) emptyTrace

/-! ## Specification helpers -/

/-- Fuel-indexed splitting of a byte stream into silence-padded frames. -/
def paddedChunksGo (fs : Nat) : Nat → List Nat → List (List Nat)
  | 0, _ => []
  | fuel + 1, s =>
    if s.isEmpty then []
    else zeroPadFrame fs s :: paddedChunksGo fs fuel (s.drop fs)

/-- The silence-padded frame decomposition of a byte stream: one frame per
started `fs`-byte block, the last one padded with `0xD5` up to `fs`. -/
def paddedChunks (fs : Nat) (s : List Nat) : List (List Nat) :=
  paddedChunksGo fs (s.length + 1) s

/-! ## Helper lemmas: buffer conversions -/

/-- Generic shape shared by the four buffer-conversion loops: apply `f`
element-wise for the first `min` indices, keep the destination's tail. -/
def mapOnto (f : α → β) : List α → List β → List β
  | _, [] => []
  | [], p => p
  | a :: as, _ :: ps => f a :: mapOnto f as ps

theorem mapOnto_length (f : α → β) : ∀ (a : List α) (p : List β),
    (mapOnto f a p).length = p.length := by
  intro a
  induction a with
  | nil => intro p; cases p <;> rfl
  | cons x xs ih =>
    intro p
    cases p with
    | nil => rfl
    | cons y ys => simp [mapOnto, ih]

theorem mapOnto_getElem?_lt (f : α → β) : ∀ (a : List α) (p : List β) (i : Nat),
    i < a.length → i < p.length → (mapOnto f a p)[i]? = (a[i]?).map f := by
  intro a
  induction a with
  | nil => intro p i h1 _; exact absurd h1 (by simp)
  | cons x xs ih =>
    intro p i h1 h2
    cases p with
    | nil => exact absurd h2 (by simp)
    | cons y ys =>
      cases i with
      | zero => simp [mapOnto]
      | succ j =>
        simpa [mapOnto] using ih ys j (by simpa using h1) (by simpa using h2)

theorem mapOnto_getElem?_ge (f : α → β) : ∀ (a : List α) (p : List β) (i : Nat),
    a.length ≤ i → (mapOnto f a p)[i]? = p[i]? := by
  intro a
  induction a with
  | nil => intro p i _; cases p <;> rfl
  | cons x xs ih =>
    intro p i h
    cases p with
    | nil => rfl
    | cons y ys =>
      cases i with
      | zero => exact absurd h (by simp)
      | succ j => simpa [mapOnto] using ih ys j (by simpa using h)

theorem mapOnto_of_length_eq (f : α → β) : ∀ (a : List α) (p : List β),
    a.length = p.length → mapOnto f a p = a.map f := by
  intro a
  induction a with
  | nil => intro p h; cases p with
    | nil => rfl
    | cons y ys => exact absurd h (by simp)
  | cons x xs ih =>
    intro p h
    cases p with
    | nil => exact absurd h (by simp)
    | cons y ys => simp [mapOnto, ih ys (by simpa using h)]

theorem g711_alawBuffer_eq_mapOnto : ∀ (a : List Nat) (p : List Int),
    G711.AlawBufferToPCM16 a p = mapOnto G711.AlawToPCM16 a p := by
  intro a
  induction a with
  | nil => intro p; cases p <;> rfl
  | cons x xs ih =>
    intro p
    cases p with
    | nil => rfl
    | cons y ys => simp [G711.AlawBufferToPCM16, mapOnto, ih]

theorem g711_pcmBuffer_eq_mapOnto : ∀ (p : List Int) (a : List Nat),
    G711.PCM16BufferToAlaw p a = mapOnto G711.PCM16ToAlaw p a := by
  intro p
  induction p with
  | nil => intro a; cases a <;> rfl
  | cons x xs ih =>
    intro a
    cases a with
    | nil => rfl
    | cons y ys => simp [G711.PCM16BufferToAlaw, mapOnto, ih]

theorem alaw_alawBuffer_eq_mapOnto : ∀ (a : List Nat) (p : List Int),
    Alaw.AlawBufferToPCM16 a p = mapOnto Alaw.AlawToPCM16 a p := by
  intro a
  induction a with
  | nil => intro p; cases p <;> rfl
  | cons x xs ih =>
    intro p
    cases p with
    | nil => rfl
    | cons y ys => simp [Alaw.AlawBufferToPCM16, mapOnto, ih]

theorem alaw_pcmBuffer_eq_mapOnto : ∀ (p : List Int) (a : List Nat),
    Alaw.PCM16BufferToAlaw p a = mapOnto Alaw.PCM16ToAlaw p a := by
  intro p
  induction p with
  | nil => intro a; cases a <;> rfl
  | cons x xs ih =>
    intro a
    cases a with
    | nil => rfl
    | cons y ys => simp [Alaw.PCM16BufferToAlaw, mapOnto, ih]

/-! ## Helper lemmas: codec round trip and frames -/

set_option maxRecDepth 8192 in
/-- The direct-computation codec's compressed-domain round trip is exact on
every 8-bit code (checked by evaluation over all 256 values). -/
theorem g711_enc_dec_fin : ∀ b : Fin 256,
    G711.Linear2Alaw (G711.Alaw2Linear b.val) = b.val := by decide

theorem g711_enc_dec (b : Nat) (hb : b < 256) :
    G711.Linear2Alaw (G711.Alaw2Linear b) = b :=
  g711_enc_dec_fin ⟨b, hb⟩

theorem zeroPadFrame_length (fs : Nat) (s : List Nat) :
    (zeroPadFrame fs s).length = fs := by
  simp only [zeroPadFrame, List.length_append, List.length_take,
    List.length_replicate]
  omega

theorem zeroPadFrame_mem_lt (fs : Nat) (s : List Nat)
    (hs : ∀ b ∈ s, b < 256) : ∀ b ∈ zeroPadFrame fs s, b < 256 := by
  intro b hb
  rcases List.mem_append.mp hb with h | h
  · exact hs b (List.take_subset fs s h)
  · rcases List.eq_of_mem_replicate h with rfl
    decide

theorem decodeFrame_eq_map (fs : Nat) (frame : List Nat)
    (h : frame.length = fs) :
    decodeFrame fs frame = frame.map G711.AlawToPCM16 := by
  rw [decodeFrame, g711_alawBuffer_eq_mapOnto]
  exact mapOnto_of_length_eq _ _ _ (by simp [h])

theorem decodeFrame_length (fs : Nat) (frame : List Nat) :
    (decodeFrame fs frame).length = fs := by
  rw [decodeFrame, g711_alawBuffer_eq_mapOnto]
  simp [mapOnto_length]

theorem encodeFrame_length (fs : Nat) (pcm : List Int) :
    (encodeFrame fs pcm).length = fs := by
  rw [encodeFrame, g711_pcmBuffer_eq_mapOnto]
  simp [mapOnto_length]

theorem mainEncodeFrame_length (fs : Nat) (pcm : List Int) :
    (mainEncodeFrame fs pcm).length = fs := by
  rw [mainEncodeFrame, alaw_pcmBuffer_eq_mapOnto]
  simp [mapOnto_length]

/-- Bypass-mode identity: encoding the decoded padded frame gives back the
frame, byte for byte, because the direct codec's round trip is exact. -/
theorem encode_decode_frame (fs : Nat) (frame : List Nat)
    (hlen : frame.length = fs) (hwf : ∀ b ∈ frame, b < 256) :
    encodeFrame fs (decodeFrame fs frame) = frame := by
  rw [decodeFrame_eq_map fs frame hlen, encodeFrame, g711_pcmBuffer_eq_mapOnto]
  rw [mapOnto_of_length_eq _ _ _ (by simp [hlen])]
  rw [List.map_map]
  calc frame.map (G711.PCM16ToAlaw ∘ G711.AlawToPCM16)
      = frame.map id := by
        apply List.map_congr_left
        intro b hb
        exact g711_enc_dec b (hwf b hb)
    _ = frame := List.map_id frame

/-! ## Helper lemmas: per-frame dispatch -/

theorem stageOut_out_length {fs : Nat} {far : Option (List Int)}
    {r : Option (List Int)} {o : List Nat}
    (h : (stageOut fs far r).out = some o) : o.length = fs := by
  cases r with
  | none => exact absurd h (by simp [stageOut])
  | some v =>
    simp only [stageOut, Option.some.injEq] at h
    rw [← h]
    apply encodeFrame_length

theorem mainStageOut_out_length {fs : Nat} {far : Option (List Int)}
    {r : Option (List Int)} {o : List Nat}
    (h : (mainStageOut fs far r).out = some o) : o.length = fs := by
  cases r with
  | none => exact absurd h (by simp [mainStageOut])
  | some v =>
    simp only [mainStageOut, Option.some.injEq] at h
    rw [← h]
    apply mainEncodeFrame_length

theorem processFrame_out_length {cfg : Config} {ns : List Int → Option (List Int)}
    {aecEcho aecFull : List Int → List Int → Option (List Int)}
    {micPcm spkPcm prev : List Int} {o : List Nat}
    (h : (processFrame cfg ns aecEcho aecFull micPcm spkPcm prev).out = some o) :
    o.length = cfg.frameSize := by
  unfold processFrame at h
  split at h
  all_goals try (exact stageOut_out_length h)
  all_goals try (simp only [Option.some.injEq] at h; rw [← h]; apply encodeFrame_length)
  next =>
    split at h
    · exact absurd h (by simp)
    · exact stageOut_out_length h

theorem mainDispatch_out_length {cfg : MainConfig} {ns : List Int → Option (List Int)}
    {aecEcho aecFull : List Int → List Int → Option (List Int)}
    {micFrame : List Nat} {micPcm asf : List Int} {o : List Nat}
    (hmf : micFrame.length = cfg.frameSize)
    (h : (mainDispatch cfg ns aecEcho aecFull micFrame micPcm asf).out = some o) :
    o.length = cfg.frameSize := by
  unfold mainDispatch at h
  split at h
  · simp only [Option.some.injEq] at h
    rw [← h]
    exact hmf
  · split at h
    · exact mainStageOut_out_length h
    · split at h
      · exact mainStageOut_out_length h
      · split at h
        · split at h
          · exact absurd h (by simp)
          · exact mainStageOut_out_length h
        · exact mainStageOut_out_length h

/-! ## Helper lemmas: chunk counting -/

theorem paddedChunksGo_len (fs : Nat) (hfs : 0 < fs) :
    ∀ fuel (s : List Nat), s.length < fuel →
      (paddedChunksGo fs fuel s).length = (s.length + fs - 1) / fs := by
  intro fuel
  induction fuel with
  | zero => intro s h; exact absurd h (Nat.not_lt_zero _)
  | succ n ih =>
    intro s h
    cases hs : s.isEmpty
    · have hne : s ≠ [] := by simpa [List.isEmpty_iff] using hs
      have hlen : 1 ≤ s.length := List.length_pos.mpr hne
      simp only [paddedChunksGo, hs, Bool.false_eq_true, if_false, List.length_cons]
      rw [ih (s.drop fs) (by simp [List.length_drop]; omega)]
      have key : ((s.drop fs).length + fs - 1) / fs = (s.length - 1) / fs := by
        rw [List.length_drop]
        rcases le_or_lt s.length fs with hle | hlt
        · have h1 : s.length - fs = 0 := by omega
          rw [h1, Nat.div_eq_of_lt (by omega), Nat.div_eq_of_lt (by omega)]
        · congr 1
          omega
      have h2 : s.length + fs - 1 = (s.length - 1) + fs := by omega
      rw [key, h2, Nat.add_div_right _ hfs]
    · have : s = [] := List.isEmpty_iff.mp hs
      subst this
      simp only [paddedChunksGo, List.isEmpty_nil, if_true, List.length_nil]
      exact (Nat.div_eq_of_lt (by omega)).symm

theorem paddedChunks_len (fs : Nat) (hfs : 0 < fs) (s : List Nat) :
    (paddedChunks fs s).length = (s.length + fs - 1) / fs :=
  paddedChunksGo_len fs hfs (s.length + 1) s (Nat.lt_succ_self _)

/-! ## Helper lemmas: error preservation -/

theorem processLoop_err_eq (cfg : Config) (ns : List Int → Option (List Int))
    (aecEcho aecFull : List Int → List Int → Option (List Int))
    (hok : ∀ m s pr, (processFrame cfg ns aecEcho aecFull m s pr).out.isSome) :
    ∀ fuel mic spk prev acc,
      (processLoop cfg ns aecEcho aecFull fuel mic spk prev acc).err = acc.err := by
  intro fuel
  induction fuel with
  | zero => intro mic spk prev acc; rfl
  | succ n ih =>
    intro mic spk prev acc
    simp only [processLoop]
    cases h1 : mic.isEmpty
    · cases h2 : needsSpeakerFile cfg.mode && spk.isEmpty
      · simp only [Bool.false_eq_true, if_false]
        obtain ⟨o, ho⟩ := Option.isSome_iff_exists.mp (hok _ _ _)
        rw [ho]
        exact ih _ _ _ _
      · simp
    · simp

theorem processAECLoop_err_eq (cfg : MainConfig) (ns : List Int → Option (List Int))
    (aecEcho aecFull : List Int → List Int → Option (List Int))
    (hok : ∀ mf m a, (mainDispatch cfg ns aecEcho aecFull mf m a).out.isSome) :
    ∀ fuel mic spk prev acc,
      (processAECLoop cfg ns aecEcho aecFull fuel mic spk prev acc).err = acc.err := by
  intro fuel
  induction fuel with
  | zero => intro mic spk prev acc; rfl
  | succ n ih =>
    intro mic spk prev acc
    simp only [processAECLoop]
    cases h1 : mic.isEmpty
    · cases h2 : mainNeedsSpeaker cfg && spk.isEmpty
      · simp only [Bool.false_eq_true, if_false]
        obtain ⟨o, ho⟩ := Option.isSome_iff_exists.mp (hok _ _ _)
        rw [ho]
        exact ih _ _ _ _
      · simp
    · simp

/-! ## Helper lemmas: bypass runs copy the padded input through -/

theorem processLoop_bypass (cfg : Config) (hcm : cfg.mode = ModeBypass)
    (ns : List Int → Option (List Int))
    (aecEcho aecFull : List Int → List Int → Option (List Int)) :
    ∀ fuel (mic spk : List Nat) (prev : List Int) (acc : PTrace),
      (∀ b ∈ mic, b < 256) →
      processLoop cfg ns aecEcho aecFull fuel mic spk prev acc =
        { acc with
          outputs := acc.outputs ++ paddedChunksGo cfg.frameSize fuel mic
          micPadded := acc.micPadded ++ paddedChunksGo cfg.frameSize fuel mic
          decodeCalls := acc.decodeCalls + (paddedChunksGo cfg.frameSize fuel mic).length
          encodeCalls := acc.encodeCalls + (paddedChunksGo cfg.frameSize fuel mic).length } := by
  have hns : needsSpeakerFile cfg.mode = false := by rw [hcm]; rfl
  intro fuel
  induction fuel with
  | zero =>
    intro mic spk prev acc hwf
    simp [processLoop, paddedChunksGo]
  | succ n ih =>
    intro mic spk prev acc hwf
    cases hmic : mic.isEmpty
    · have hframe :
          encodeFrame cfg.frameSize
            (decodeFrame cfg.frameSize (zeroPadFrame cfg.frameSize mic)) =
            zeroPadFrame cfg.frameSize mic :=
        encode_decode_frame _ _ (zeroPadFrame_length _ _)
          (zeroPadFrame_mem_lt _ _ hwf)
      simp only [processLoop, hmic, Bool.false_eq_true, if_false, hns,
        Bool.false_and, Bool.and_self, processFrame, hcm, hframe]
      rw [ih _ _ _ _ (fun b hb => hwf b (List.drop_subset _ _ hb))]
      have hnb : needsSpeakerFile ModeBypass = false := rfl
      simp only [paddedChunksGo, hmic, Bool.false_eq_true, if_false,
        List.length_cons, hnb, Bool.false_and, List.append_nil,
        List.nil_append, Option.toList]
      simp only [PTrace.mk.injEq, true_and, and_true, eq_self_iff_true]
      refine ⟨by simp, by simp, by omega, by omega⟩
    · have hmic' : mic = [] := List.isEmpty_iff.mp hmic
      subst hmic'
      simp [processLoop, paddedChunksGo]

theorem processAECLoop_bypass (cfg : MainConfig) (hb : cfg.bypass = true)
    (ns : List Int → Option (List Int))
    (aecEcho aecFull : List Int → List Int → Option (List Int)) :
    ∀ fuel (mic spk : List Nat) (prev : List Int) (acc : PTrace),
      processAECLoop cfg ns aecEcho aecFull fuel mic spk prev acc =
        { acc with
          outputs := acc.outputs ++ paddedChunksGo cfg.frameSize fuel mic
          micPadded := acc.micPadded ++ paddedChunksGo cfg.frameSize fuel mic
          decodeCalls := acc.decodeCalls + (paddedChunksGo cfg.frameSize fuel mic).length } := by
  have hneeds : mainNeedsSpeaker cfg = false := by
    simp [mainNeedsSpeaker, hb]
  intro fuel
  induction fuel with
  | zero =>
    intro mic spk prev acc
    simp [processAECLoop, paddedChunksGo]
  | succ n ih =>
    intro mic spk prev acc
    cases hmic : mic.isEmpty
    · simp only [processAECLoop, hmic, Bool.false_eq_true, if_false, hneeds,
        Bool.false_and, mainDispatch, hb, if_true]
      rw [ih]
      simp only [paddedChunksGo, hmic, Bool.false_eq_true, if_false,
        List.length_cons, List.append_nil, List.nil_append, Option.toList]
      simp only [PTrace.mk.injEq, true_and, and_true, eq_self_iff_true]
      refine ⟨by simp, by simp, by omega⟩
    · have hmic' : mic = [] := List.isEmpty_iff.mp hmic
      subst hmic'
      simp [processAECLoop, paddedChunksGo]

/-! ## Helper lemmas: frame counting in far-end-free modes -/

theorem processLoop_noSpkCount (cfg : Config) (ns : List Int → Option (List Int))
    (aecEcho aecFull : List Int → List Int → Option (List Int))
    (h : needsSpeakerFile cfg.mode = false)
    (hok : ∀ m s pr, (processFrame cfg ns aecEcho aecFull m s pr).out.isSome) :
    ∀ fuel (mic spk : List Nat) (prev : List Int) (acc : PTrace),
      (processLoop cfg ns aecEcho aecFull fuel mic spk prev acc).outputs.length
          = acc.outputs.length + (paddedChunksGo cfg.frameSize fuel mic).length
      ∧ (processLoop cfg ns aecEcho aecFull fuel mic spk prev acc).micPadded
          = acc.micPadded ++ paddedChunksGo cfg.frameSize fuel mic := by
  intro fuel
  induction fuel with
  | zero =>
    intro mic spk prev acc
    simp [processLoop, paddedChunksGo]
  | succ n ih =>
    intro mic spk prev acc
    cases hmic : mic.isEmpty
    · simp only [processLoop, hmic, Bool.false_eq_true, if_false, h,
        Bool.false_and]
      obtain ⟨o, ho⟩ := Option.isSome_iff_exists.mp (hok _ _ _)
      rw [ho]
      refine ⟨Eq.trans (ih _ _ _ _).1 ?_, Eq.trans (ih _ _ _ _).2 ?_⟩
      · simp only [paddedChunksGo, hmic, Bool.false_eq_true, if_false,
          List.length_cons, List.length_append, List.length_singleton,
          List.length_nil]
        omega
      · simp only [paddedChunksGo, hmic, Bool.false_eq_true, if_false]
        simp [List.append_assoc]
    · have hmic' : mic = [] := List.isEmpty_iff.mp hmic
      subst hmic'
      simp [processLoop, paddedChunksGo]

/-! ## Helper lemmas: every written frame has the configured size -/

theorem processLoop_out_sizes (cfg : Config) (ns : List Int → Option (List Int))
    (aecEcho aecFull : List Int → List Int → Option (List Int)) :
    ∀ fuel (mic spk : List Nat) (prev : List Int) (acc : PTrace),
      (∀ o ∈ acc.outputs, o.length = cfg.frameSize) →
      ∀ o ∈ (processLoop cfg ns aecEcho aecFull fuel mic spk prev acc).outputs,
        o.length = cfg.frameSize := by
  intro fuel
  induction fuel with
  | zero => intro mic spk prev acc hacc; exact hacc
  | succ n ih =>
    intro mic spk prev acc hacc
    simp only [processLoop]
    cases h1 : mic.isEmpty
    · cases h2 : needsSpeakerFile cfg.mode && spk.isEmpty
      · simp only [Bool.false_eq_true, if_false]
        cases ho : (processFrame cfg ns aecEcho aecFull
            (decodeFrame cfg.frameSize (zeroPadFrame cfg.frameSize mic))
            (if needsSpeakerFile cfg.mode = true then
              decodeFrame cfg.frameSize (zeroPadFrame cfg.frameSize spk)
            else List.replicate cfg.frameSize 0) prev).out with
        | none => exact hacc
        | some o =>
          apply ih
          intro u hu
          rcases List.mem_append.mp hu with hu | hu
          · exact hacc u hu
          · rcases List.mem_singleton.mp hu with rfl
            exact processFrame_out_length ho
      · simp only [if_true]; exact hacc
    · simp only [if_true]; exact hacc

theorem processAECLoop_out_sizes (cfg : MainConfig)
    (ns : List Int → Option (List Int))
    (aecEcho aecFull : List Int → List Int → Option (List Int)) :
    ∀ fuel (mic spk : List Nat) (prev : List Int) (acc : PTrace),
      (∀ o ∈ acc.outputs, o.length = cfg.frameSize) →
      ∀ o ∈ (processAECLoop cfg ns aecEcho aecFull fuel mic spk prev acc).outputs,
        o.length = cfg.frameSize := by
  intro fuel
  induction fuel with
  | zero => intro mic spk prev acc hacc; exact hacc
  | succ n ih =>
    intro mic spk prev acc hacc
    simp only [processAECLoop]
    cases h1 : mic.isEmpty
    · cases h2 : mainNeedsSpeaker cfg && spk.isEmpty
      · simp only [Bool.false_eq_true, if_false]
        cases ho : (mainDispatch cfg ns aecEcho aecFull
            (zeroPadFrame cfg.frameSize mic)
            (mainDecodeFrame cfg.frameSize (zeroPadFrame cfg.frameSize mic))
            (if cfg.usePrevSpeaker = true then prev
             else
               if mainNeedsSpeaker cfg = true then
                 mainDecodeFrame cfg.frameSize (zeroPadFrame cfg.frameSize spk)
               else List.replicate cfg.frameSize 0)).out with
        | none => exact hacc
        | some o =>
          apply ih
          intro u hu
          rcases List.mem_append.mp hu with hu | hu
          · exact hacc u hu
          · rcases List.mem_singleton.mp hu with rfl
            exact mainDispatch_out_length (zeroPadFrame_length _ _) ho
      · simp only [if_true]; exact hacc
    · simp only [if_true]; exact hacc

/-! ## Helper lemmas: early far-end exhaustion stops the loop -/

theorem processLoop_spkEmpty (cfg : Config) (ns : List Int → Option (List Int))
    (aecEcho aecFull : List Int → List Int → Option (List Int))
    (hm : needsSpeakerFile cfg.mode = true)
    (fuel : Nat) (mic : List Nat) (hmic : mic ≠ [])
    (prev : List Int) (acc : PTrace) :
    processLoop cfg ns aecEcho aecFull (fuel + 1) mic [] prev acc = acc := by
  have h1 : mic.isEmpty = false := by
    cases mic with
    | nil => exact absurd rfl hmic
    | cons x xs => rfl
  simp [processLoop, h1, hm]

theorem processAECLoop_spkEmpty (cfg : MainConfig)
    (ns : List Int → Option (List Int))
    (aecEcho aecFull : List Int → List Int → Option (List Int))
    (hm : mainNeedsSpeaker cfg = true)
    (fuel : Nat) (mic : List Nat) (hmic : mic ≠ [])
    (prev : List Int) (acc : PTrace) :
    processAECLoop cfg ns aecEcho aecFull (fuel + 1) mic [] prev acc = acc := by
  have h1 : mic.isEmpty = false := by
    cases mic with
    | nil => exact absurd rfl hmic
    | cons x xs => rfl
  simp [processAECLoop, h1, hm]

/-! ## Helper lemmas: delay-compensated far-end selection -/

theorem getD_append_last {α : Type} (l : List α) (a d : α) :
    (l ++ [a]).getD l.length d = a := by
  rw [List.getD_append_right _ _ _ _ (le_refl _)]
  simp

/-- The far-end frames handed to the engine are, position by position, the
silence frame first and then the decoded far-end frame of the previous
iteration. -/
def FarRel (fs : Nat) (ef sd : List (List Int)) : Prop :=
  ∀ i, i < ef.length →
    ef.getD i [] = if i = 0 then List.replicate fs 0 else sd.getD (i - 1) []

theorem FarRel_extend (fs : Nat) (ef sd : List (List Int)) (pr spkPcm : List Int)
    (hlen : ef.length = sd.length)
    (hprev : pr = if sd.length = 0 then List.replicate fs 0
                  else sd.getD (sd.length - 1) [])
    (hrel : FarRel fs ef sd)
    (far : List (List Int)) (hfar : far = [] ∨ far = [pr]) :
    FarRel fs (ef ++ far) (sd ++ [spkPcm]) := by
  rcases hfar with rfl | rfl
  · intro i hi
    rw [List.append_nil] at hi
    rw [List.append_nil, hrel i hi]
    by_cases h0 : i = 0
    · simp [h0]
    · simp only [h0, if_false]
      rw [List.getD_append _ _ _ _ (by omega : i - 1 < sd.length)]
  · intro i hi
    rcases Nat.lt_or_ge i ef.length with hlt | hge
    · rw [List.getD_append _ _ _ _ hlt, hrel i hlt]
      by_cases h0 : i = 0
      · simp [h0]
      · simp only [h0, if_false]
        rw [List.getD_append _ _ _ _ (by omega : i - 1 < sd.length)]
    · have hi' : i = ef.length := by
        simp only [List.length_append, List.length_cons, List.length_nil] at hi
        omega
      subst hi'
      rw [getD_append_last]
      by_cases h0 : ef.length = 0
      · have hsd0 : sd.length = 0 := by omega
        simp only [h0, if_true]
        rw [hprev, if_pos hsd0]
      · have hsd0 : sd.length ≠ 0 := by omega
        simp only [h0, if_false]
        rw [List.getD_append _ _ _ _ (by omega : ef.length - 1 < sd.length)]
        rw [hprev, if_neg hsd0, hlen]

theorem stageOut_farUsed (fs : Nat) (far : Option (List Int))
    (r : Option (List Int)) : (stageOut fs far r).farUsed = far := by
  cases r <;> rfl

theorem processFrame_farUsed_cases (cfg : Config)
    (hm : needsSpeakerFile cfg.mode = true) (hp : cfg.usePrevSpeaker = true)
    (ns : List Int → Option (List Int))
    (aecEcho aecFull : List Int → List Int → Option (List Int))
    (m s pr : List Int) :
    (processFrame cfg ns aecEcho aecFull m s pr).farUsed = none ∨
    (processFrame cfg ns aecEcho aecFull m s pr).farUsed = some pr := by
  have hfar : getAECSpeakerFrame cfg s pr = pr := by
    simp [getAECSpeakerFrame, hp]
  cases hmode : cfg.mode
  all_goals (rw [hmode] at hm; try exact absurd hm (by decide))
  · right
    simp [processFrame, hmode, stageOut_farUsed, hfar]
  · cases hns : ns m
    · left
      simp [processFrame, hmode, hns]
    · right
      simp [processFrame, hmode, hns, stageOut_farUsed, hfar]
  · right
    simp [processFrame, hmode, stageOut_farUsed, hfar]

theorem processFrame_out_some_farUsed (cfg : Config)
    (hm : needsSpeakerFile cfg.mode = true) (hp : cfg.usePrevSpeaker = true)
    (ns : List Int → Option (List Int))
    (aecEcho aecFull : List Int → List Int → Option (List Int))
    (m s pr : List Int) (o : List Nat)
    (h : (processFrame cfg ns aecEcho aecFull m s pr).out = some o) :
    (processFrame cfg ns aecEcho aecFull m s pr).farUsed = some pr := by
  have hfar : getAECSpeakerFrame cfg s pr = pr := by
    simp [getAECSpeakerFrame, hp]
  cases hmode : cfg.mode
  all_goals (rw [hmode] at hm; try exact absurd hm (by decide))
  · simp [processFrame, hmode, stageOut_farUsed, hfar]
  · cases hns : ns m
    · rw [processFrame, hmode] at h
      simp only [hns] at h
      exact absurd h (by simp)
    · simp [processFrame, hmode, hns, stageOut_farUsed, hfar]
  · simp [processFrame, hmode, stageOut_farUsed, hfar]

theorem processLoop_farRel (cfg : Config) (ns : List Int → Option (List Int))
    (aecEcho aecFull : List Int → List Int → Option (List Int))
    (hm : needsSpeakerFile cfg.mode = true) (hp : cfg.usePrevSpeaker = true) :
    ∀ fuel (mic spk : List Nat) (prev : List Int) (acc : PTrace),
      acc.engineFar.length = acc.spkDecoded.length →
      prev = (if acc.spkDecoded.length = 0 then List.replicate cfg.frameSize 0
              else acc.spkDecoded.getD (acc.spkDecoded.length - 1) []) →
      FarRel cfg.frameSize acc.engineFar acc.spkDecoded →
      FarRel cfg.frameSize
        (processLoop cfg ns aecEcho aecFull fuel mic spk prev acc).engineFar
        (processLoop cfg ns aecEcho aecFull fuel mic spk prev acc).spkDecoded := by
  intro fuel
  induction fuel with
  | zero => intro mic spk prev acc hlen hprev hrel; exact hrel
  | succ n ih =>
    intro mic spk prev acc hlen hprev hrel
    simp only [processLoop, hm, if_true, Bool.true_and]
    cases h1 : mic.isEmpty
    · cases h2 : spk.isEmpty
      · simp only [Bool.false_eq_true, if_false]
        cases ho : (processFrame cfg ns aecEcho aecFull
            (decodeFrame cfg.frameSize (zeroPadFrame cfg.frameSize mic))
            (decodeFrame cfg.frameSize (zeroPadFrame cfg.frameSize spk))
            prev).out with
        | none =>
          apply FarRel_extend cfg.frameSize _ _ prev _ hlen hprev hrel
          rcases processFrame_farUsed_cases cfg hm hp ns aecEcho aecFull
              (decodeFrame cfg.frameSize (zeroPadFrame cfg.frameSize mic))
              (decodeFrame cfg.frameSize (zeroPadFrame cfg.frameSize spk))
              prev with hf | hf
          · left; rw [hf]; rfl
          · right; rw [hf]; rfl
        | some o =>
          have hf := processFrame_out_some_farUsed cfg hm hp ns aecEcho aecFull
            (decodeFrame cfg.frameSize (zeroPadFrame cfg.frameSize mic))
            (decodeFrame cfg.frameSize (zeroPadFrame cfg.frameSize spk))
            prev o ho
          apply ih
          · simp [hf, hlen]
          · have hcond : (cfg.usePrevSpeaker && true) = true := by rw [hp]; rfl
            rw [if_pos hcond]
            rw [if_neg (show ¬((acc.spkDecoded ++
                [decodeFrame cfg.frameSize (zeroPadFrame cfg.frameSize spk)]).length = 0)
              by simp)]
            have hlen2 : (acc.spkDecoded ++
                [decodeFrame cfg.frameSize (zeroPadFrame cfg.frameSize spk)]).length - 1
                = acc.spkDecoded.length := by simp
            rw [hlen2]
            exact (getD_append_last _ _ _).symm
          · apply FarRel_extend cfg.frameSize _ _ prev _ hlen hprev hrel
            right
            rw [hf]
            rfl
      · exact hrel
    · exact hrel

/-! ## Helper lemmas: engine success in far-end-free modes -/

theorem processFrame_ok_of_noSpk (cfg : Config) (ns : List Int → Option (List Int))
    (aecEcho aecFull : List Int → List Int → Option (List Int))
    (h : needsSpeakerFile cfg.mode = false) (hns : ∀ x, (ns x).isSome) :
    ∀ m s pr, (processFrame cfg ns aecEcho aecFull m s pr).out.isSome := by
  intro m s pr
  cases hmode : cfg.mode
  · simp [processFrame, hmode]
  · simp [processFrame, hmode]
  · have hx := hns m
    cases hm : ns m
    · rw [hm] at hx; exact absurd hx (by simp)
    · simp [processFrame, hmode, hm, stageOut]
  · rw [hmode] at h; exact absurd h (by decide)
  · rw [hmode] at h; exact absurd h (by decide)
  · rw [hmode] at h; exact absurd h (by decide)

/-- Total output size of a run whose frames all have length `fs`. -/
theorem join_length_of_sizes (l : List (List Nat)) (fs : Nat)
    (h : ∀ o ∈ l, o.length = fs) : l.flatten.length = l.length * fs := by
  induction l with
  | nil => simp
  | cons x xs ih =>
    simp only [List.flatten_cons, List.length_append, List.length_cons]
    rw [h x (by simp), ih (fun o ho => h o (by simp [ho]))]
    ring

/-! ## Claim theorems -/

/-- C1 (counterexample): the claim "decoding 0xD5 yields exactly 0 and
encoding 0 yields exactly 0xD5, in both implementations" is false on the
code: both decoders map the silence byte 0xD5 to 8, not 0, and the
table-driven encoder maps 0 to 0x25, not 0xD5. -/
theorem c1_silence_counterexample :
    Alaw.AlawToPCM16 0xD5 ≠ 0 ∧ G711.Alaw2Linear 0xD5 ≠ 0 ∧
    Alaw.PCM16ToAlaw 0 ≠ 0xD5 := by decide

/-- C1 (amended): both decoders map the silence byte 0xD5 to 8, one
quantization step above 0 (A-law has no exact zero level); the
direct-computation encoder maps 0 to 0xD5, while the table-driven
`PCM16ToAlaw` of `src/alaw.go` maps 0 to 0x25. -/
theorem c1_silence_amended :
    Alaw.AlawToPCM16 0xD5 = 8 ∧ G711.Alaw2Linear 0xD5 = 8 ∧
    G711.Linear2Alaw 0 = 0xD5 ∧ Alaw.PCM16ToAlaw 0 = 0x25 := by decide

set_option maxRecDepth 8192 in
/-- C3: the direct-computation codec round-trips every 8-bit A-law code
exactly (`Linear2Alaw (Alaw2Linear b) = b` for all 256 codes), as the claim
demands; the table-driven codec of `src/alaw.go` violates the claim: its
round trip of the silence byte 0xD5 yields 0x25, which is not within one
quantization step (0x25 even has the opposite sign bit and decodes to
-16896). -/
theorem c3_roundtrip :
    (∀ b : Fin 256, G711.Linear2Alaw (G711.Alaw2Linear b.val) = b.val) ∧
    Alaw.PCM16ToAlaw (Alaw.AlawToPCM16 0xD5) = 0x25 ∧
    Alaw.AlawToPCM16 (Alaw.PCM16ToAlaw (Alaw.AlawToPCM16 0xD5)) = -16896 :=
  ⟨g711_enc_dec_fin, by decide, by decide⟩

/-- C4 (counterexample): the two encoders are not bit-identical; they
already disagree at the input 0 (0x25 versus 0xD5). -/
theorem c4_encoders_counterexample :
    Alaw.PCM16ToAlaw 0 ≠ G711.Linear2Alaw 0 := by decide

set_option maxRecDepth 8192 in
/-- C4 (amended): the two decoders are bit-identical on all 256 A-law
codes (`AlawToPCM16 b = Alaw2Linear b`), but the two encoders are not:
they disagree, already at the input 0. -/
theorem c4_decoders_bit_identical :
    (∀ b : Fin 256, Alaw.AlawToPCM16 b.val = G711.Alaw2Linear b.val) ∧
    Alaw.PCM16ToAlaw 0 ≠ G711.Linear2Alaw 0 := by
  exact ⟨by decide, by decide⟩

/-- C9: `Processor.needsSpeakerFile` and the config package's
`speakerRequired` agree on every mode, returning `false` exactly for
{Bypass, CodecRoundtripTest, NoiseSuppressOnly} and `true` exactly for
{EchoCancelOnly, NoiseSuppressThenEcho, EchoThenNoiseSuppress}. -/
theorem c9_far_end_requirement :
    ∀ m : ProcessingMode,
      needsSpeakerFile m = speakerRequired m
      ∧ (needsSpeakerFile m = false ↔
          (m = ModeBypass ∨ m = ModeTestAlaw ∨ m = ModeNSOnly))
      ∧ (needsSpeakerFile m = true ↔
          (m = ModeAECOnly ∨ m = ModeNSFirst ∨ m = ModeAECFirst)) := by
  intro m
  cases m <;> simp [needsSpeakerFile, speakerRequired]

/-- C8: all four buffer conversions act element-wise for exactly the first
`min (length src) (length dst)` indices, are total (no panic) on every pair
of lengths, and leave every destination element past the converted prefix
unchanged. -/
theorem c8_buffer_conversion :
    ∀ (a : List Nat) (p : List Int),
      ((G711.AlawBufferToPCM16 a p).length = p.length
        ∧ (∀ i, i < a.length → i < p.length →
            (G711.AlawBufferToPCM16 a p)[i]? = (a[i]?).map G711.AlawToPCM16)
        ∧ (∀ i, a.length ≤ i → (G711.AlawBufferToPCM16 a p)[i]? = p[i]?))
      ∧ ((G711.PCM16BufferToAlaw p a).length = a.length
        ∧ (∀ i, i < p.length → i < a.length →
            (G711.PCM16BufferToAlaw p a)[i]? = (p[i]?).map G711.PCM16ToAlaw)
        ∧ (∀ i, p.length ≤ i → (G711.PCM16BufferToAlaw p a)[i]? = a[i]?))
      ∧ ((Alaw.AlawBufferToPCM16 a p).length = p.length
        ∧ (∀ i, i < a.length → i < p.length →
            (Alaw.AlawBufferToPCM16 a p)[i]? = (a[i]?).map Alaw.AlawToPCM16)
        ∧ (∀ i, a.length ≤ i → (Alaw.AlawBufferToPCM16 a p)[i]? = p[i]?))
      ∧ ((Alaw.PCM16BufferToAlaw p a).length = a.length
        ∧ (∀ i, i < p.length → i < a.length →
            (Alaw.PCM16BufferToAlaw p a)[i]? = (p[i]?).map Alaw.PCM16ToAlaw)
        ∧ (∀ i, p.length ≤ i → (Alaw.PCM16BufferToAlaw p a)[i]? = a[i]?)) := by
  intro a p
  rw [g711_alawBuffer_eq_mapOnto, g711_pcmBuffer_eq_mapOnto,
    alaw_alawBuffer_eq_mapOnto, alaw_pcmBuffer_eq_mapOnto]
  exact ⟨⟨mapOnto_length _ _ _, mapOnto_getElem?_lt _ _ _, mapOnto_getElem?_ge _ _ _⟩,
    ⟨mapOnto_length _ _ _, mapOnto_getElem?_lt _ _ _, mapOnto_getElem?_ge _ _ _⟩,
    ⟨mapOnto_length _ _ _, mapOnto_getElem?_lt _ _ _, mapOnto_getElem?_ge _ _ _⟩,
    ⟨mapOnto_length _ _ _, mapOnto_getElem?_lt _ _ _, mapOnto_getElem?_ge _ _ _⟩⟩

/-- C8 (witness): a 5-element PCM buffer into a 3-element compressed buffer
converts exactly the first 3 elements and leaves nothing else; a 2-element
compressed buffer into a 4-element PCM buffer leaves the last 2 destination
entries untouched. -/
theorem c8_buffer_conversion_witness :
    (G711.PCM16BufferToAlaw [0, 100, -100, 1000, -1000] [9, 9, 9]).length = 3
    ∧ (G711.PCM16BufferToAlaw [0, 100, -100, 1000, -1000] [9, 9, 9])[1]?
        = some (G711.PCM16ToAlaw 100)
    ∧ (G711.AlawBufferToPCM16 [0xD5, 0xD5] [7, 7, 7, 7])[3]? = some 7 := by
  refine ⟨(c8_buffer_conversion [9, 9, 9] [0, 100, -100, 1000, -1000]).2.1.1, ?_, ?_⟩
  · have h := (c8_buffer_conversion [9, 9, 9]
      [0, 100, -100, 1000, -1000]).2.1.2.1 1 (by decide) (by decide)
    rw [h]
    decide
  · have h := (c8_buffer_conversion [0xD5, 0xD5] [7, 7, 7, 7]).1.2.2 3 (by decide)
    rw [h]
    decide

/-- C2 (counterexample): in a concrete Bypass run of the
`internal/processor` pipeline (frame size 1, one input byte), the codec IS
invoked on the input-to-output path — one buffer decode and one buffer
encode — refuting the claim that decode and encode are not invoked at all;
`src/main.go` likewise decodes the near-end frame unconditionally. -/
theorem c2_bypass_counterexample :
    (processAudio ⟨ModeBypass, 1, false⟩ (fun _ => none) (fun _ _ => none)
        (fun _ _ => none) [0xD5] []).decodeCalls = 1
    ∧ (processAudio ⟨ModeBypass, 1, false⟩ (fun _ => none) (fun _ _ => none)
        (fun _ _ => none) [0xD5] []).encodeCalls = 1
    ∧ (processAEC ⟨1, false, false, false, false, true⟩ (fun _ => none)
        (fun _ _ => none) (fun _ _ => none) [0xD5] []).decodeCalls = 1 := by
  decide

/-- C2 (amended): in Bypass mode every output frame is a byte-for-byte copy
of the silence-padded near-end input frame in both implementations, and no
run errors; however the codec is not skipped: `src/main.go` decodes the
near-end frame once per iteration (discarding the result) before copying
the raw bytes, and the `internal/processor` implementation decodes and
re-encodes the frame once per iteration — the copy property there holds
because the codec's compressed-domain round trip is exact. -/
theorem c2_bypass_copies_padded_input (cfg : Config) (mcfg : MainConfig)
    (ns : List Int → Option (List Int))
    (aecEcho aecFull : List Int → List Int → Option (List Int))
    (mic spk : List Nat)
    (hcm : cfg.mode = ModeBypass) (hb : mcfg.bypass = true)
    (hwf : ∀ b ∈ mic, b < 256) :
    ((processAudio cfg ns aecEcho aecFull mic spk).outputs
        = paddedChunks cfg.frameSize mic
      ∧ (processAudio cfg ns aecEcho aecFull mic spk).decodeCalls
        = (paddedChunks cfg.frameSize mic).length
      ∧ (processAudio cfg ns aecEcho aecFull mic spk).encodeCalls
        = (paddedChunks cfg.frameSize mic).length
      ∧ (processAudio cfg ns aecEcho aecFull mic spk).err = none)
    ∧ ((processAEC mcfg ns aecEcho aecFull mic spk).outputs
        = paddedChunks mcfg.frameSize mic
      ∧ (processAEC mcfg ns aecEcho aecFull mic spk).decodeCalls
        = (paddedChunks mcfg.frameSize mic).length
      ∧ (processAEC mcfg ns aecEcho aecFull mic spk).encodeCalls = 0
      ∧ (processAEC mcfg ns aecEcho aecFull mic spk).err = none) := by
  have h1 := processLoop_bypass cfg hcm ns aecEcho aecFull (mic.length + 1)
    mic spk (List.replicate cfg.frameSize 0) emptyTrace hwf
  have h2 := processAECLoop_bypass mcfg hb ns aecEcho aecFull (mic.length + 1)
    mic spk (List.replicate mcfg.frameSize 0) emptyTrace
  constructor
  · rw [processAudio, h1]
    simp [emptyTrace, paddedChunks]
  · rw [processAEC, h2]
    simp [emptyTrace, paddedChunks]

/-- C2 (witness): a concrete 3-byte stream with frame size 2 comes through
Bypass as two frames, the second padded with 0xD5, in both
implementations. -/
theorem c2_bypass_witness :
    (processAudio ⟨ModeBypass, 2, false⟩ (fun x => some x) (fun _ _ => none)
        (fun _ _ => none) [1, 2, 3] []).outputs = paddedChunks 2 [1, 2, 3]
    ∧ (processAEC ⟨2, false, false, false, false, true⟩ (fun x => some x)
        (fun _ _ => none) (fun _ _ => none) [1, 2, 3] []).outputs
      = paddedChunks 2 [1, 2, 3]
    ∧ paddedChunks 2 [1, 2, 3] = [[1, 2], [3, 0xD5]] := by
  have h := c2_bypass_copies_padded_input ⟨ModeBypass, 2, false⟩
    ⟨2, false, false, false, false, true⟩ (fun x => some x) (fun _ _ => none)
    (fun _ _ => none) [1, 2, 3] [] rfl rfl (by decide)
  exact ⟨h.1.1, h.2.1, by decide⟩

/-- C5: with delay compensation enabled in a far-end-requiring mode, the
far-end frame handed to the engine at iteration index `i` (0-based) is the
all-zero silence frame for `i = 0` and the decoded far-end frame read
during iteration `i - 1` for every later iteration — the retained frame
observed by the engine is always the previous iteration's, because it is
overwritten only after the stage execution. -/
theorem c5_delayed_far_end (cfg : Config) (ns : List Int → Option (List Int))
    (aecEcho aecFull : List Int → List Int → Option (List Int))
    (mic spk : List Nat)
    (hm : needsSpeakerFile cfg.mode = true) (hp : cfg.usePrevSpeaker = true) :
    ∀ i, i < (processAudio cfg ns aecEcho aecFull mic spk).engineFar.length →
      (processAudio cfg ns aecEcho aecFull mic spk).engineFar.getD i []
        = if i = 0 then List.replicate cfg.frameSize 0
          else (processAudio cfg ns aecEcho aecFull mic spk).spkDecoded.getD (i - 1) [] := by
  have h := processLoop_farRel cfg ns aecEcho aecFull hm hp (mic.length + 1)
    mic spk (List.replicate cfg.frameSize 0) emptyTrace rfl (by simp [emptyTrace])
    (by intro i hi; simp [emptyTrace] at hi)
  exact h

/-- C5 (witness): a two-iteration AEC-only run with delay compensation:
the engine's far-end frame of iteration 1 is the decoded far-end frame read
during iteration 0. -/
theorem c5_delayed_far_end_witness :
    (processAudio ⟨ModeAECOnly, 1, true⟩ (fun x => some x) (fun m _ => some m)
        (fun m _ => some m) [1, 1] [2, 3]).engineFar.getD 1 []
      = if 1 = 0 then List.replicate 1 0
        else (processAudio ⟨ModeAECOnly, 1, true⟩ (fun x => some x)
            (fun m _ => some m) (fun m _ => some m) [1, 1] [2, 3]).spkDecoded.getD 0 [] :=
  c5_delayed_far_end ⟨ModeAECOnly, 1, true⟩ (fun x => some x) (fun m _ => some m)
    (fun m _ => some m) [1, 1] [2, 3] rfl rfl 1 (by decide)

/-- C6: in a mode that needs no far-end stream, with an engine that never
fails, a run over a near-end stream of length `L` processes exactly
`⌈L / frameSize⌉` frames; the frames actually processed are the
silence-padded chunks of the stream, so a short-but-nonempty final frame is
padded with 0xD5 and processed, not discarded, and the run ends cleanly. -/
theorem c6_partial_final_frame (cfg : Config) (ns : List Int → Option (List Int))
    (aecEcho aecFull : List Int → List Int → Option (List Int))
    (mic spk : List Nat)
    (hfs : 0 < cfg.frameSize) (hm : needsSpeakerFile cfg.mode = false)
    (hns : ∀ x, (ns x).isSome) :
    (processAudio cfg ns aecEcho aecFull mic spk).outputs.length
        = (mic.length + cfg.frameSize - 1) / cfg.frameSize
    ∧ (processAudio cfg ns aecEcho aecFull mic spk).micPadded
        = paddedChunks cfg.frameSize mic
    ∧ (processAudio cfg ns aecEcho aecFull mic spk).err = none := by
  have hok := processFrame_ok_of_noSpk cfg ns aecEcho aecFull hm hns
  obtain ⟨h1, h2⟩ := processLoop_noSpkCount cfg ns aecEcho aecFull hm hok
    (mic.length + 1) mic spk (List.replicate cfg.frameSize 0) emptyTrace
  refine ⟨?_, ?_, ?_⟩
  · rw [processAudio, h1]
    simp only [emptyTrace, List.length_nil, Nat.zero_add]
    exact paddedChunksGo_len cfg.frameSize hfs (mic.length + 1) mic
      (Nat.lt_succ_self _)
  · rw [processAudio, h2]
    simp [emptyTrace, paddedChunks]
  · rw [processAudio, processLoop_err_eq cfg ns aecEcho aecFull hok]
    rfl

/-- C6 (witness): a 321-byte near-end stream in NS-only mode with frame
size 320 produces exactly 2 output frames. -/
theorem c6_partial_final_frame_witness :
    0 < 320
    ∧ (processAudio ⟨ModeNSOnly, 320, false⟩ (fun x => some x) (fun _ _ => none)
        (fun _ _ => none) (List.replicate 321 0xD5) []).outputs.length = 2 := by
  refine ⟨by decide, ?_⟩
  have h := (c6_partial_final_frame ⟨ModeNSOnly, 320, false⟩ (fun x => some x)
    (fun _ _ => none) (fun _ _ => none) (List.replicate 321 0xD5) []
    (by decide) rfl (fun x => rfl)).1
  rw [h, List.length_replicate]
  rfl

/-- C7: in a far-end-requiring mode, if the far-end source yields zero
bytes at the start of an iteration while the near-end source still has
data, both pipeline implementations return the accumulated state untouched
— no further frame is processed, every frame written so far is preserved,
and no error is recorded; and with a never-failing engine, a whole run
always finishes with a `nil` error (early far-end exhaustion included). -/
theorem c7_far_end_exhaustion_is_success :
    (∀ (cfg : Config) (ns : List Int → Option (List Int))
        (aecEcho aecFull : List Int → List Int → Option (List Int))
        (fuel : Nat) (mic : List Nat) (prev : List Int) (acc : PTrace),
      needsSpeakerFile cfg.mode = true → mic ≠ [] →
      processLoop cfg ns aecEcho aecFull (fuel + 1) mic [] prev acc = acc)
    ∧ (∀ (mcfg : MainConfig) (ns : List Int → Option (List Int))
        (aecEcho aecFull : List Int → List Int → Option (List Int))
        (fuel : Nat) (mic : List Nat) (prev : List Int) (acc : PTrace),
      mainNeedsSpeaker mcfg = true → mic ≠ [] →
      processAECLoop mcfg ns aecEcho aecFull (fuel + 1) mic [] prev acc = acc)
    ∧ (∀ (cfg : Config) (ns : List Int → Option (List Int))
        (aecEcho aecFull : List Int → List Int → Option (List Int))
        (mic spk : List Nat),
      (∀ m s pr, (processFrame cfg ns aecEcho aecFull m s pr).out.isSome) →
      (processAudio cfg ns aecEcho aecFull mic spk).err = none)
    ∧ (∀ (mcfg : MainConfig) (ns : List Int → Option (List Int))
        (aecEcho aecFull : List Int → List Int → Option (List Int))
        (mic spk : List Nat),
      (∀ mf m a, (mainDispatch mcfg ns aecEcho aecFull mf m a).out.isSome) →
      (processAEC mcfg ns aecEcho aecFull mic spk).err = none) := by
  refine ⟨?_, ?_, ?_, ?_⟩
  · intro cfg ns aecEcho aecFull fuel mic prev acc hm hmic
    exact processLoop_spkEmpty cfg ns aecEcho aecFull hm fuel mic hmic prev acc
  · intro mcfg ns aecEcho aecFull fuel mic prev acc hm hmic
    exact processAECLoop_spkEmpty mcfg ns aecEcho aecFull hm fuel mic hmic prev acc
  · intro cfg ns aecEcho aecFull mic spk hok
    rw [processAudio, processLoop_err_eq cfg ns aecEcho aecFull hok]
    rfl
  · intro mcfg ns aecEcho aecFull mic spk hok
    rw [processAEC, processAECLoop_err_eq mcfg ns aecEcho aecFull hok]
    rfl

/-- C7 (witness): a concrete AEC-only run with an empty far-end stream and
a nonempty near-end stream stops immediately with no output and no error. -/
theorem c7_far_end_exhaustion_witness :
    processLoop ⟨ModeAECOnly, 1, false⟩ (fun x => some x) (fun m _ => some m)
        (fun m _ => some m) 1 [5] [] [] emptyTrace = emptyTrace
    ∧ (processAudio ⟨ModeAECOnly, 1, false⟩ (fun x => some x) (fun m _ => some m)
        (fun m _ => some m) [5] []).err = none := by
  constructor
  · exact c7_far_end_exhaustion_is_success.1 ⟨ModeAECOnly, 1, false⟩
      (fun x => some x) (fun m _ => some m) (fun m _ => some m) 0 [5] [] emptyTrace
      rfl (by decide)
  · refine c7_far_end_exhaustion_is_success.2.2.1 ⟨ModeAECOnly, 1, false⟩
      (fun x => some x) (fun m _ => some m) (fun m _ => some m) [5] [] ?_
    intro m s pr
    cases hp : (processFrame ⟨ModeAECOnly, 1, false⟩ (fun x => some x)
        (fun m _ => some m) (fun m _ => some m) m s pr).out
    · rw [processFrame] at hp
      simp [stageOut] at hp
    · simp [hp]

/-- C10: in every mode, with arbitrary engine behaviour (failures
included), every frame either pipeline implementation writes has exactly
`frameSize` bytes, so the total number of output bytes is a whole multiple
of the frame size. -/
theorem c10_output_multiple_of_frame_size :
    (∀ (cfg : Config) (ns : List Int → Option (List Int))
        (aecEcho aecFull : List Int → List Int → Option (List Int))
        (mic spk : List Nat),
      (∀ o ∈ (processAudio cfg ns aecEcho aecFull mic spk).outputs,
          o.length = cfg.frameSize)
      ∧ (processAudio cfg ns aecEcho aecFull mic spk).outputs.flatten.length
          % cfg.frameSize = 0)
    ∧ (∀ (mcfg : MainConfig) (ns : List Int → Option (List Int))
        (aecEcho aecFull : List Int → List Int → Option (List Int))
        (mic spk : List Nat),
      (∀ o ∈ (processAEC mcfg ns aecEcho aecFull mic spk).outputs,
          o.length = mcfg.frameSize)
      ∧ (processAEC mcfg ns aecEcho aecFull mic spk).outputs.flatten.length
          % mcfg.frameSize = 0) := by
  constructor
  · intro cfg ns aecEcho aecFull mic spk
    have hsizes := processLoop_out_sizes cfg ns aecEcho aecFull (mic.length + 1)
      mic spk (List.replicate cfg.frameSize 0) emptyTrace (by intro o ho; simp [emptyTrace] at ho)
    refine ⟨hsizes, ?_⟩
    rw [processAudio, join_length_of_sizes _ cfg.frameSize hsizes]
    simp [Nat.mul_mod_left]
  · intro mcfg ns aecEcho aecFull mic spk
    have hsizes := processAECLoop_out_sizes mcfg ns aecEcho aecFull (mic.length + 1)
      mic spk (List.replicate mcfg.frameSize 0) emptyTrace (by intro o ho; simp [emptyTrace] at ho)
    refine ⟨hsizes, ?_⟩
    rw [processAEC, join_length_of_sizes _ mcfg.frameSize hsizes]
    simp [Nat.mul_mod_left]

/-- C10 (witness): a one-and-a-half-frame bypass run writes frames of
exactly the frame size. -/
theorem c10_output_sizes_witness :
    (∀ o ∈ (processAudio ⟨ModeBypass, 2, false⟩ (fun x => some x)
        (fun _ _ => none) (fun _ _ => none) [1, 2, 3] []).outputs, o.length = 2)
    ∧ ([1, 2] ∈ (processAudio ⟨ModeBypass, 2, false⟩ (fun x => some x)
        (fun _ _ => none) (fun _ _ => none) [1, 2, 3] []).outputs ∧
       ([1, 2] : List Nat).length = 2) := by
  have h := (c10_output_multiple_of_frame_size.1 ⟨ModeBypass, 2, false⟩
    (fun x => some x) (fun _ _ => none) (fun _ _ => none) [1, 2, 3] []).1
  exact ⟨h, by decide, h [1, 2] (by decide)⟩
